import Mathlib

set_option maxHeartbeats 1000000

/-!
Shallow embedding of `src/xr_parser.py` (MDTF-diagnostics, GFDL-Eric fork):
the attribute normalizer (`guess_attr`, `normalize_attr`, `normalize_unit`,
`normalize_calendar`, `normalize_ds_attrs`, `restore_attrs`), the attribute
reconciler (`compare_attr`, `reconcile_attr`, `reconcile_units`,
`reconcile_coord_bounds`), the axis classifier (`_old_axes_dict`) and the
final presence checks (`check_unit`).

Conventions of the embedding:
* Python attribute values are modelled by `AttrValue`: a string or the
  `ATTR_NOT_FOUND` sentinel made by `util.sentinel_object_factory`.
* Python dicts are association lists with dict-like operations (`alGet?`,
  `alSet`, `alDel`, `alUpdate`): first occurrence wins on lookup, `alSet`
  replaces in place or appends, mirroring insertion-ordered dicts.
* Exceptions are modelled with `Except`.  `guess_attr` and `compare_attr`
  are `@staticmethod`s in the source yet their bodies refer to `self.log`;
  `self` is an unbound name there, so reaching those logging statements
  raises `NameError` in Python.  Those program points are modelled by the
  `PErr.nameError` constructor.  Logging through a bound `self.log` (in
  ordinary instance methods) is modelled as a no-op.
* External collaborators (cf_xarray axis guessing, `ds.cf.get_bounds`, the
  unit predicates `units_equivalent` / `units_equal` and the canonicalizer
  `to_cfunits` from `src.units`) are taken as parameters, as the spec
  declares them out of scope.
-/

/-- Attribute values: a string, or the `ATTR_NOT_FOUND` sentinel placed
where an expected netCDF attribute is absent. -/
inductive AttrValue where
  | str (s : String)
  | notFound
deriving DecidableEq

/-- Python truthiness of an attribute value: the empty string is falsy,
every other string is truthy, and the sentinel (a plain object) is truthy. -/
def truthy : AttrValue → Bool
  | .str s => !(s == "")
  | .notFound => true

/-- Kinds of exception raised by the parser code: `KeyError` from
`guess_attr`, `TypeError` for missing attributes, `ValueError` for a
mismatch (its message interpolates both values, carried here as payload),
and `NameError` for the unbound `self` in the static methods' log calls. -/
inductive PErr where
  | keyError
  | typeError
  | valueError (ours theirs : AttrValue)
  | nameError
deriving DecidableEq

/-- Association lists standing in for Python dicts of attributes. -/
abbrev Attrs := List (String × AttrValue)

/-- Dict lookup (`d[k]` / `d.get(k)`): value at the first matching key. -/
def alGet? {α : Type} : List (String × α) → String → Option α
  | [], _ => none
  | (k0, v) :: rest, k => if k0 = k then some v else alGet? rest k

/-- Dict lookup with a default (`d.get(k, dflt)`). -/
def alGetD {α : Type} (l : List (String × α)) (k : String) (dflt : α) : α :=
  (alGet? l k).getD dflt

/-- Dict assignment (`d[k] = v`): replace the first binding in place, or
append a new binding, keeping insertion order like a Python dict. -/
def alSet {α : Type} : List (String × α) → String → α → List (String × α)
  | [], k, v => [(k, v)]
  | (k0, v0) :: rest, k, v =>
    if k0 = k then (k0, v) :: rest else (k0, v0) :: alSet rest k v

/-- Dict deletion (`del d[k]`). -/
def alDel {α : Type} (l : List (String × α)) (k : String) : List (String × α) :=
  l.filter (fun p => !(p.1 == k))

/-- Dict update (`d.update(e)`): assign every binding of `e` into `d`. -/
def alUpdate {α : Type} (d e : List (String × α)) : List (String × α) :=
  e.foldl (fun acc p => alSet acc p.1 p.2) d

/-- Dict key view (`d.keys()`). -/
def alKeys {α : Type} (l : List (String × α)) : List String :=
  l.map Prod.fst

/-- ASCII letter test, the `[a-zA-Z]` class of the unit-repair regex. -/
def isAsciiLetter (c : Char) : Bool :=
  ('a' ≤ c && c ≤ 'z') || ('A' ≤ c && c ≤ 'Z')

/-- ASCII lowercasing of one character, as `str.lower` acts on ASCII. -/
def lcChar (c : Char) : Char :=
  if 'A' ≤ c ∧ c ≤ 'Z' then Char.ofNat (c.toNat + 32) else c

/-- The munging in the second pass of `guess_attr`: lowercase the string,
then drop every character outside the class a-z0-9, as the `re.sub` call
in `str_munge` does. -/
def str_munge (s : String) : String :=
  ⟨(s.data.map lcChar).filter (fun c => ('a' ≤ c && c ≤ 'z') || ('0' ≤ c && c ≤ '9'))⟩

/-- List-level prefix test used to model `str.startswith`. -/
def isPrefList : List Char → List Char → Bool
  | [], _ => true
  | _ :: _, [] => false
  | p :: ps, c :: cs => p = c && isPrefList ps cs

/-- `s.startswith(pat)` on strings. -/
def strSW (s pat : String) : Bool :=
  isPrefList pat.data s.data

/-- Whitespace test for `str.strip`. -/
def isWs (c : Char) : Bool :=
  c = ' ' || c = '\t' || c = '\n' || c = '\r'

/-- Drop leading and trailing whitespace from a character list. -/
def trimList (l : List Char) : List Char :=
  ((l.dropWhile isWs).reverse.dropWhile isWs).reverse

/-- `str.strip()`: drop leading and trailing whitespace. -/
def strTrim (s : String) : String :=
  ⟨trimList s.data⟩

/-- The controlled calendar vocabulary `_cf_calendars`. -/
def _cf_calendars : List String :=
  ["gregorian", "standard", "proleptic_gregorian", "julian", "noleap",
   "365_day", "all_leap", "366_day", "360_day", "none"]

/-- The configured default calendar, `self.fallback_cal`. -/
def fallback_cal : String := "proleptic_gregorian"

/-- `DatasetParser.guess_attr` (a `@staticmethod`): select the element of
`options` matching `attr_name` under `cmpF` (defaulting to equality); on
zero exact matches retry on munged strings, succeeding only for exactly one
munged match.  The log statements reached when more than one exact match
exists, or when exactly one munged match exists, go through `self.log` with
`self` unbound, hence `nameError` at those points.  The `attr_desc`
argument is only interpolated into log messages and is omitted. -/
def guess_attr (attr_name : String) (options : List String)
    (dflt : Option String) (cmpF : Option (String → String → Bool)) :
    Except PErr String :=
  let cmp := cmpF.getD (fun x y => x == y)
  let tc := (options.filter (fun opt => cmp opt attr_name)).length
  if 1 < tc then
    .error .nameError
  else if 1 ≤ tc then
    .ok attr_name
  else
    let m := options.filter (fun opt => cmp (str_munge opt) (str_munge attr_name))
    if m.length = 1 then
      .error .nameError
    else
      match dflt with
      | some d => .ok d
      | none => .error .keyError

/-- `DatasetParser.normalize_attr`: look `key_name` up in `d` through
`guess_attr`; on `KeyError` retry with the `key_sw` value under a
`startswith` comparison; record the found value (or the sentinel) in
`new_attr_d[key_name]`.  Only `KeyError` is caught, so the `NameError`
raised from the logging inside `guess_attr` propagates. -/
def normalize_attr (new_attr_d d : Attrs) (key_name : String)
    (key_sw : Option String) : Except PErr Attrs :=
  match guess_attr key_name (alKeys d) none none with
  | .error .keyError =>
    (match key_sw with
     | none => .ok (alSet new_attr_d key_name .notFound)
     | some p =>
       match guess_attr p (alKeys d) none (some (fun x y => strSW x y)) with
       | .error .keyError => .ok (alSet new_attr_d key_name .notFound)
       | .error e => .error e
       | .ok k =>
         if k ≠ key_name then
           .ok (alSet new_attr_d key_name (alGetD d k .notFound))
         else
           .ok (alSet new_attr_d key_name (alGetD d key_name .notFound)))
  | .error e => .error e
  | .ok k =>
    if k ≠ key_name then
      .ok (alSet new_attr_d key_name (alGetD d k .notFound))
    else
      .ok (alSet new_attr_d key_name (alGetD d key_name .notFound))

/-- `DatasetParser.normalize_standard_name`: `normalize_attr` specialized to
`standard_name` with key prefix `standard`. -/
def normalize_standard_name (new_attr_d attr_d : Attrs) : Except PErr Attrs :=
  normalize_attr new_attr_d attr_d "standard_name" (some "standard")

/-- The negative lookbehind on `[^a-zA-Z]` of the unit-repair regex:
succeeds at the start of input or after a letter. -/
def lookbehindOk : Option Char → Bool
  | none => true
  | some p => isAsciiLetter p

/-- The negative lookahead on `[^a-zA-Z]`: succeeds at end of input or
before a letter. -/
def lookaheadOk : List Char → Bool
  | [] => true
  | c :: _ => isAsciiLetter c

/-- Left-to-right non-overlapping scan of
`re.sub(r"(?<![^a-zA-Z])([mM][bB])(?![^a-zA-Z])", "millibar", s)`;
`prev` holds the input character just before the scan position. -/
def mbSubAux : Option Char → List Char → List Char
  | _, [] => []
  | _, [c] => [c]
  | prev, c1 :: c2 :: rest =>
    if ((c1 == 'm' || c1 == 'M') && (c2 == 'b' || c2 == 'B')
        && lookbehindOk prev && lookaheadOk rest) then
      "millibar".data ++ mbSubAux (some c2) rest
    else
      c1 :: mbSubAux (some c1) (c2 :: rest)

/-- The `mb` → `millibar` rewrite of `normalize_unit`, as the regex in the
source actually behaves. -/
def mb_sub (s : String) : String :=
  ⟨mbSubAux none s.data⟩

/-- `DatasetParser.normalize_unit`: `normalize_attr` for `units` with key
prefix `unit`, then the `mb` rewrite applied when the found value is not
the sentinel. -/
def normalize_unit (new_attr_d attr_d : Attrs) : Except PErr Attrs :=
  match normalize_attr new_attr_d attr_d "units" (some "unit") with
  | .error e => .error e
  | .ok nd =>
    match alGet? nd "units" with
    | some (.str s) => .ok (alSet nd "units" (.str (mb_sub s)))
    | _ => .ok nd

/-- `DatasetParser.normalize_calendar`: find the calendar attribute via
`normalize_attr` (prefix `cal`); delete the key when the sentinel was
recorded, otherwise re-map the value through `_cf_calendars` with
`guess_attr`, defaulting to `fallback_cal`.  Note `attr_d` is passed as
both the target and the source dict in the source. -/
def normalize_calendar (attr_d : Attrs) : Except PErr Attrs :=
  match normalize_attr attr_d attr_d "calendar" (some "cal") with
  | .error e => .error e
  | .ok d =>
    match alGetD d "calendar" .notFound with
    | .notFound => .ok (alDel d "calendar")
    | .str s =>
      match guess_attr s _cf_calendars (some fallback_cal) none with
      | .error e => .error e
      | .ok c => .ok (alSet d "calendar" (.str c))

/-- Whitespace-strip one attribute value (`strip_` in `normalize_ds_attrs`;
non-strings are returned unchanged). -/
def stripVal : AttrValue → AttrValue
  | .str s => .str (strTrim s)
  | v => v

/-- `strip_attrs`: the dict comprehension stripping every key and every
string value, rebuilt as a fresh dict. -/
def strip_attrs (d : Attrs) : Attrs :=
  d.foldl (fun acc p => alSet acc (strTrim p.1) (stripVal p.2)) []

/-- Per-variable body of `normalize_ds_attrs`: strip the variable's attrs,
run standard-name and unit normalization into a fresh dict, run calendar
normalization on the stripped dict itself, and return
`d.copy().update(new_d)`, the dict stashed in `var_attrs_restore`. -/
def normalize_var_restore (attrs0 : Attrs) : Except PErr Attrs :=
  let d := strip_attrs attrs0
  match normalize_standard_name [] d with
  | .error e => .error e
  | .ok nd1 =>
    match normalize_unit nd1 d with
    | .error e => .error e
    | .ok nd2 =>
      match normalize_calendar d with
      | .error e => .error e
      | .ok d2 => .ok (alUpdate d2 nd2)

/-- A dataset for attribute purposes: dataset-level attrs and the
variables, each with its own attrs. -/
structure Dataset where
  attrs : Attrs
  vars : List (String × Attrs)
deriving DecidableEq

/-- The per-variable loop of `normalize_ds_attrs`, in order, stopping at
the first raised exception. -/
def normalize_vars : List (String × Attrs) → Except PErr (List (String × Attrs))
  | [] => .ok []
  | (n, a) :: rest =>
    match normalize_var_restore a with
    | .error e => .error e
    | .ok r =>
      match normalize_vars rest with
      | .error e => .error e
      | .ok rs => .ok ((n, r) :: rs)

/-- `DatasetParser.normalize_ds_attrs`: strip the dataset-level attrs in
place and snapshot them as `attrs_backup`; build `var_attrs_restore` for
every variable.  The live per-variable attrs are deliberately untouched.
Returns the updated dataset, the backup and the restore map. -/
def normalize_ds_attrs (ds : Dataset) :
    Except PErr (Dataset × Attrs × List (String × Attrs)) :=
  match normalize_vars ds.vars with
  | .error e => .error e
  | .ok rs =>
    .ok ({ ds with attrs := strip_attrs ds.attrs }, strip_attrs ds.attrs, rs)

/-- `_restore_one` inside `restore_attrs`: re-insert every backed-up key
absent from the live dict; a differing surviving value is only logged. -/
def restore_one (backup_d attrs_d : Attrs) : Attrs :=
  backup_d.foldl
    (fun acc p => if (alGet? acc p.1).isSome then acc else alSet acc p.1 p.2)
    attrs_d

/-- `DatasetParser.restore_attrs`: run `_restore_one` on the dataset attrs
against `attrs_backup` and on every variable against its
`var_attrs_restore` entry. -/
def restore_attrs (ds : Dataset) (backup : Attrs)
    (restore : List (String × Attrs)) : Dataset :=
  { attrs := restore_one backup ds.attrs,
    vars := ds.vars.map (fun p => (p.1, restore_one (alGetD restore p.1 []) p.2)) }

/-- `normalize_ds_attrs` then `restore_attrs` with no intervening decode
step: the round trip the spec claims is the identity. -/
def roundTrip (ds : Dataset) : Except PErr Dataset :=
  match normalize_ds_attrs ds with
  | .error e => .error e
  | .ok (ds1, backup, restore) => .ok (restore_attrs ds1 backup restore)

/-- `DatasetParser.check_unit`: raise `TypeError` when the stored `units`
value defaults to, or equals, the sentinel — downgraded to a logged warning
when `skip_units` is set. -/
def check_unit (skip_units : Bool) (var_attrs : Attrs) : Except PErr Unit :=
  if alGetD var_attrs "units" .notFound = .notFound then
    if skip_units then .ok () else .error .typeError
  else
    .ok ()

/-- Result of one `compare_attr` call: the value of the attribute on the
framework's record after the call, the dataset attrs after the call, and
the exception raised, if any.  Mutations made before a raise survive it. -/
structure CAOut where
  val : AttrValue
  ds : Attrs
  err : Option PErr
deriving DecidableEq

/-- `DatasetParser.compare_attr` (a `@staticmethod`): compare the attribute
on the framework's record with the dataset's value and update one side on
disagreement.  The `update_ds` branch and the non-trivial `our`-update
branch reach `self.log` with `self` unbound, so they raise `NameError`
before writing.  On a mismatch with `update_our_var` set, the record's
attribute is overwritten with the dataset value and a `ValueError` carrying
both values is still raised.  `tiebreaker` is `None` at every call site
and is otherwise unused by the body, so it is omitted. -/
def compare_attr (ourName : AttrValue) (ourAttrName : String)
    (ourVal : AttrValue) (dsAttrs : Attrs) (dsVal : AttrValue)
    (cmp : AttrValue → AttrValue → Bool)
    (updateOur updateDs : Bool) : CAOut :=
  let can_update_our_var := updateOur && !(dsVal == .notFound)
  if dsVal = .notFound ∨ truthy dsVal = false then
    if updateDs then
      ⟨ourVal, dsAttrs, some .nameError⟩
    else
      ⟨ourVal, dsAttrs, some .typeError⟩
  else if truthy ourVal = false then
    if can_update_our_var then
      if ourAttrName = "name" ∧ ourName = dsVal then
        ⟨dsVal, dsAttrs, none⟩
      else
        ⟨ourVal, dsAttrs, some .nameError⟩
    else
      ⟨ourVal, dsAttrs, some .typeError⟩
  else if cmp ourVal dsVal = false then
    ⟨if can_update_our_var then dsVal else ourVal, dsAttrs,
      some (.valueError ourVal dsVal)⟩
  else
    ⟨ourVal, dsAttrs, none⟩

/-- The expected-variable record (`TranslatedVarlistEntry`) at the
attribute level: name, standard name and units. -/
structure TranslatedVar where
  name : AttrValue
  standard_name : AttrValue
  units : AttrValue
deriving DecidableEq

/-- Attribute slots of `TranslatedVar` addressed by name, standing in for
`getattr`/`setattr` with a dynamic attribute name. -/
inductive VField where
  | fname
  | fstd
  | funits
deriving DecidableEq

/-- The Python attribute name of a slot. -/
def fieldName : VField → String
  | .fname => "name"
  | .fstd => "standard_name"
  | .funits => "units"

/-- `getattr(our_var, f)`. -/
def vget (v : TranslatedVar) : VField → AttrValue
  | .fname => v.name
  | .fstd => v.standard_name
  | .funits => v.units

/-- `setattr(our_var, f, x)`. -/
def vset (v : TranslatedVar) : VField → AttrValue → TranslatedVar
  | .fname, x => { v with name := x }
  | .fstd, x => { v with standard_name := x }
  | .funits, x => { v with units := x }

/-- `DatasetParser.reconcile_attr`: read the slot from the record and the
same-named attribute from the dataset variable's attrs (defaulting to the
sentinel), run `compare_attr`, and store the resulting slot value back. -/
def reconcile_attr (our : TranslatedVar) (f : VField) (dsAttrs : Attrs)
    (cmp : Option (AttrValue → AttrValue → Bool))
    (updateOur updateDs : Bool) : TranslatedVar × Attrs × Option PErr :=
  let an := fieldName f
  let r := compare_attr our.name an (vget our f) dsAttrs
    (alGetD dsAttrs an .notFound) (cmp.getD (fun a b => a == b))
    updateOur updateDs
  (vset our f r.val, r.ds, r.err)

/-- Apply `units.to_cfunits` to a units value (reached only with a string
value: the handler runs just after the slot was overwritten with the
dataset's string). -/
def toCFVal (toCF : String → String) : AttrValue → AttrValue
  | .str s => .str (toCF s)
  | v => v

/-- `DatasetParser.reconcile_units`: `check_unit` on the dataset variable,
then `reconcile_attr` under `units_equivalent` (fatal on failure), then
`reconcile_attr` under `units_equal`, whose `ValueError` is caught, logged
as a warning, and answered by canonicalizing the record's (by then
overwritten) units through `to_cfunits`. -/
def reconcile_units (skip_units : Bool)
    (uEquiv uEqual : AttrValue → AttrValue → Bool) (toCF : String → String)
    (our : TranslatedVar) (dsAttrs : Attrs) :
    TranslatedVar × Attrs × Option PErr :=
  match check_unit skip_units dsAttrs with
  | .error e => (our, dsAttrs, some e)
  | .ok _ =>
    let r1 := reconcile_attr our .funits dsAttrs (some uEquiv) true skip_units
    match r1.2.2 with
    | some e => (r1.1, r1.2.1, some e)
    | none =>
      let r2 := reconcile_attr r1.1 .funits r1.2.1 (some uEqual) true skip_units
      match r2.2.2 with
      | some (.valueError _ _) =>
        (vset r2.1 .funits (toCFVal toCF (vget r2.1 .funits)), r2.2.1, none)
      | some e => (r2.1, r2.2.1, some e)
      | none => (r2.1, r2.2.1, none)

/-- An expected dimension-coordinate record: attribute slots plus the
`bounds_var` reference filled in by `reconcile_coord_bounds`. -/
structure OurCoord where
  name : AttrValue
  standard_name : AttrValue
  units : AttrValue
  bounds_var : Option String
deriving DecidableEq

/-- `DatasetParser.reconcile_coord_bounds`: ask the external
`ds.cf.get_bounds` (modelled by `getB`, returning the bounds variable's
name and attrs, or `none` for its `KeyError`); on `KeyError` set
`bounds_var := None` and return.  Otherwise inherit `standard_name` and
`units` onto the bounds variable (update-ds direction only) and record the
bounds variable. -/
def reconcile_coord_bounds (uEqual : AttrValue → AttrValue → Bool)
    (getB : String → Option (String × Attrs))
    (coord : OurCoord) (ds : Dataset) (ds_coord_name : String) :
    OurCoord × Dataset × Option PErr :=
  match getB ds_coord_name with
  | none => ({ coord with bounds_var := none }, ds, none)
  | some (bname, battrs) =>
    let r1 := compare_attr coord.name "standard_name" coord.standard_name
      battrs (alGetD battrs "standard_name" .notFound)
      (fun a b => a == b) false true
    match r1.err with
    | some e => (coord, ds, some e)
    | none =>
      let r2 := compare_attr coord.name "units" coord.units
        r1.ds (alGetD r1.ds "units" .notFound) uEqual false true
      match r2.err with
      | some e => (coord, ds, some e)
      | none => ({ coord with bounds_var := some bname }, ds, none)

/-- `cf_xarray.accessor._AXIS_NAMES`, in iteration order. -/
def AXIS_NAMES : List String := ["X", "Y", "Z", "T"]

/-- The two `TypeError`s of `_old_axes_dict` for a single variable: too
many coordinates mapped to one axis, or dimensions left unassigned with
no unique repair. -/
inductive AxisErr where
  | tooManyAxes
  | missingAxes
deriving DecidableEq

/-- Lexicographic comparison of character lists by code point, the order
Python string comparison uses. -/
def lexLt : List Char → List Char → Bool
  | [], [] => false
  | [], _ :: _ => true
  | _ :: _, [] => false
  | a :: as, b :: bs => a.toNat < b.toNat || (a == b && lexLt as bs)

/-- String comparison by code points. -/
def strLtB (a b : String) : Bool :=
  lexLt a.data b.data

/-- Insert a string into a sorted list (ascending, as Python `sorted`). -/
def insertStr (x : String) : List String → List String
  | [] => [x]
  | y :: ys => if strLtB x y then x :: y :: ys else y :: insertStr x ys

/-- Ascending sort of a string list (`sorted(v)`). -/
def sortStrs : List String → List String
  | [] => []
  | x :: xs => insertStr x (sortStrs xs)

/-- The validation loop of `_old_axes_dict` when a variable is given: walk
the axes in order, raising on a multiply-assigned axis; record a
one-coordinate axis whose coordinate is a genuine dimension (consuming the
dimension), mark it for deletion otherwise, and record empty axes.
Returns the processed axis dict, the leftover dimensions, the empty axes
and the axes marked for deletion. -/
def axLoop : List (String × List String) → List String →
    Except AxisErr (List (String × List String) × List String × List String × List String)
  | [], dims => .ok ([], dims, [], [])
  | (k, v) :: rest, dims =>
    match v with
    | [] =>
      (match axLoop rest dims with
       | .error e => .error e
       | .ok (vd, dl, ek, delk) => .ok ((k, []) :: vd, dl, k :: ek, delk))
    | [c] =>
      if c ∈ dims then
        match axLoop rest (dims.erase c) with
        | .error e => .error e
        | .ok (vd, dl, ek, delk) => .ok ((k, [c]) :: vd, dl, ek, delk)
      else
        match axLoop rest dims with
        | .error e => .error e
        | .ok (vd, dl, ek, delk) => .ok ((k, [c]) :: vd, dl, ek, k :: delk)
    | _ :: _ :: _ => .error .tooManyAxes

/-- Shared tail of `_old_axes_dict`: zero out the axes marked for
deletion, drop empty axes, and sort each name list. -/
def axFinalize (vd : List (String × List String)) (delk : List String) :
    List (String × List String) :=
  ((delk.foldl (fun acc k => alSet acc k []) vd).filter
    (fun p => !p.2.isEmpty)).map (fun p => (p.1, sortStrs p.2))

/-- `MDTFCFAccessorMixin._old_axes_dict` with `var_name` given: validate
the raw axis map (`get`, the external cf_xarray classification of the
variable) against the variable's dimensions `dims`; a leftover dimension
is paired with the unique empty axis when both are unique, and is a
`TypeError` otherwise. -/
def _old_axes_dict_var (get : String → List String) (dims : List String) :
    Except AxisErr (List (String × List String)) :=
  match axLoop (AXIS_NAMES.map (fun k => (k, get k))) dims with
  | .error e => .error e
  | .ok (vd, dl, ek, delk) =>
    match dl with
    | [] => .ok (axFinalize vd delk)
    | [d0] =>
      (match ek with
       | [e0] => .ok (axFinalize (alSet vd e0 [d0]) delk)
       | _ => .error .missingAxes)
    | _ :: _ :: _ => .error .missingAxes

/-- `MDTFCFAccessorMixin._old_axes_dict` with no variable: keep every
nonempty axis, each mapped to the sorted list of all its coordinate
names — no validation, no exception. -/
def _old_axes_dict_ds (get : String → List String) :
    List (String × List String) :=
  ((AXIS_NAMES.map (fun k => (k, get k))).filter
    (fun p => !p.2.isEmpty)).map (fun p => (p.1, sortStrs p.2))

/-! Theorems.  Each claim of the specification gets one theorem below;
helper lemmas precede the claim theorems they serve. -/

/-- Claim C1: for every `compare_attr` call where both the expected-side
value and the dataset-side value are present (neither the sentinel nor
empty), a false comparison yields a mismatch `ValueError` carrying both
values, with the expected side already overwritten by the dataset value
exactly when updating it is allowed, and the dataset attrs untouched; a
true comparison changes neither side and raises nothing. -/
theorem compare_attr_both_present_spec
    (ourName : AttrValue) (an : String) (ourVal dsVal : AttrValue)
    (dsAttrs : Attrs) (cmp : AttrValue → AttrValue → Bool)
    (updateOur updateDs : Bool)
    (hOur : truthy ourVal = true) (hDs1 : dsVal ≠ .notFound)
    (hDs2 : truthy dsVal = true) :
    (cmp ourVal dsVal = false →
      compare_attr ourName an ourVal dsAttrs dsVal cmp updateOur updateDs =
        ⟨if updateOur then dsVal else ourVal, dsAttrs,
          some (.valueError ourVal dsVal)⟩)
    ∧ (cmp ourVal dsVal = true →
      compare_attr ourName an ourVal dsAttrs dsVal cmp updateOur updateDs =
        ⟨ourVal, dsAttrs, none⟩) := by
  constructor <;> intro hc <;>
    simp [compare_attr, hOur, hDs1, hDs2, hc]

/-- Witness for C1 at concrete inputs. -/
theorem compare_attr_both_present_spec_witness :
    compare_attr (.str "pr") "units" (.str "K") [] (.str "m")
        (fun a b => a == b) true false =
      ⟨.str "m", [], some (.valueError (.str "K") (.str "m"))⟩ :=
  (compare_attr_both_present_spec (.str "pr") "units" (.str "K") (.str "m")
    [] (fun a b => a == b) true false (by decide) (by decide) (by decide)).1
    (by decide)

/-- Claim C3 (code bug): when exactly one option matches the attribute
name after munging, `guess_attr` raises `NameError` (the log statement
dereferences `self` inside a `@staticmethod`) instead of returning the
munged match its docstring promises; the ambiguous-munged-match cases do
behave as claimed (`KeyError` without a default, the default otherwise). -/
theorem guess_attr_munged_match_behavior :
    guess_attr "units" ["Units"] none none = .error .nameError
    ∧ guess_attr "units" ["Units", "UNITS"] none none = .error .keyError
    ∧ guess_attr "units" ["Units", "UNITS"] (some "dflt") none = .ok "dflt" :=
  ⟨rfl, rfl, rfl⟩

/-- Claim C4 (code bug): `normalize_attr` propagates the `NameError` from
the unique case-insensitive match in `guess_attr` instead of writing the found
value, and in the prefix fallback `guess_attr` returns the prefix string
itself, so the recorded value is `source.get(prefix)` — the sentinel —
rather than the value under the prefix-matching key. -/
theorem normalize_attr_lookup_behavior :
    normalize_attr [] [("Units", AttrValue.str "K")] "units" none =
      .error .nameError
    ∧ normalize_attr [] [("unit_string", AttrValue.str "K")] "units"
        (some "unit") = .ok [("units", AttrValue.notFound)] :=
  ⟨rfl, rfl⟩

/-- Claim C8 (code bug): the lookarounds of the `mb` regex are doubly
negated (`(?<![^a-zA-Z])`, `(?![^a-zA-Z])`), so `mb` is replaced exactly
when each neighbour is a letter or absent: `"mb"` becomes `"millibar"`,
but `"5 mb"` is left unchanged while `"number"` and `"kmb"` are rewritten
— the opposite of the word-boundary guard the claim (and the source's own
comment) describe. -/
theorem mb_sub_adjacent_letters :
    mb_sub "mb" = "millibar" ∧ mb_sub "5 mb" = "5 mb"
    ∧ mb_sub "number" = "numillibarer" ∧ mb_sub "kmb" = "kmillibar" := by
  refine ⟨by decide, by decide, by decide, by decide⟩

/-- Claim C9: when the bounds lookup finds no bounds variable for the
coordinate, `reconcile_coord_bounds` sets the expected coordinate's
`bounds_var` to `None` and returns without raising, leaving every other
field of the coordinate and the whole dataset unchanged. -/
theorem reconcile_coord_bounds_no_bounds
    (uEqual : AttrValue → AttrValue → Bool)
    (getB : String → Option (String × Attrs))
    (coord : OurCoord) (ds : Dataset) (n : String)
    (h : getB n = none) :
    reconcile_coord_bounds uEqual getB coord ds n =
      ({ coord with bounds_var := none }, ds, none) := by
  simp [reconcile_coord_bounds, h]

/-- Witness for C9 at concrete inputs. -/
theorem reconcile_coord_bounds_no_bounds_witness :
    reconcile_coord_bounds (fun a b => a == b) (fun _ => none)
      ⟨AttrValue.str "lat", AttrValue.str "latitude",
        AttrValue.str "degrees_north", some "lat_bnds"⟩
      ⟨[], []⟩ "lat" =
      (⟨AttrValue.str "lat", AttrValue.str "latitude",
        AttrValue.str "degrees_north", none⟩, ⟨[], []⟩, none) :=
  reconcile_coord_bounds_no_bounds (fun a b => a == b) (fun _ => none)
    ⟨AttrValue.str "lat", AttrValue.str "latitude",
      AttrValue.str "degrees_north", some "lat_bnds"⟩
    ⟨[], []⟩ "lat" rfl

/-- Counterexample to claim C2 as stated: with equivalent but unequal
units, `reconcile_units` succeeds, but the expected variable's units end
up as the canonical form of the dataset's units (`mm/day`), not of the
original expected units (`kg m-2 s-1`). -/
theorem reconcile_units_expected_units_counterexample :
    (reconcile_units false (fun _ _ => true) (fun _ _ => false)
        (fun s => "canon:" ++ s)
        ⟨AttrValue.str "pr_var", AttrValue.notFound, AttrValue.str "kg m-2 s-1"⟩
        [("units", AttrValue.str "mm/day")]).2.2 = none
    ∧ (reconcile_units false (fun _ _ => true) (fun _ _ => false)
        (fun s => "canon:" ++ s)
        ⟨AttrValue.str "pr_var", AttrValue.notFound, AttrValue.str "kg m-2 s-1"⟩
        [("units", AttrValue.str "mm/day")]).1.units =
      AttrValue.str "canon:mm/day"
    ∧ AttrValue.str "canon:mm/day" ≠
        AttrValue.str ("canon:" ++ "kg m-2 s-1") :=
  ⟨rfl, rfl, by decide⟩

/-- Counterexample to claim C7 as stated: `"std"` does not canonicalize to
the vocabulary entry of `"gregorian"` — it falls through to the default
`proleptic_gregorian` — and `"Gregorian"` raises `NameError` from the
logging slip instead of canonicalizing at all. -/
theorem normalize_calendar_claim_counterexample :
    normalize_calendar [("calendar", AttrValue.str "std")] =
      .ok [("calendar", AttrValue.str "proleptic_gregorian")]
    ∧ normalize_calendar [("calendar", AttrValue.str "Gregorian")] =
      .error .nameError
    ∧ normalize_calendar [("calendar", AttrValue.str "gregorian")] =
      .ok [("calendar", AttrValue.str "gregorian")]
    ∧ ("proleptic_gregorian" : String) ≠ "gregorian" :=
  ⟨rfl, rfl, rfl, by decide⟩

/-- Counterexample to claim C5 as stated: the round trip is not the
identity — a variable with an empty attribute dict gains sentinel-valued
`standard_name` and `units` entries. -/
theorem roundTrip_not_identity :
    roundTrip ⟨[], [("v", [])]⟩ =
      .ok ⟨[], [("v", [("standard_name", AttrValue.notFound),
        ("units", AttrValue.notFound)])]⟩
    ∧ (⟨[], [("v", [("standard_name", AttrValue.notFound),
        ("units", AttrValue.notFound)])]⟩ : Dataset) ≠ ⟨[], [("v", [])]⟩ :=
  ⟨rfl, by decide⟩

/-- Claim C2 (amended): with units present on both sides, physically
equivalent (`units_equivalent` true) but not textually equal
(`units_equal` false), `reconcile_units` returns without raising and
leaves the expected variable's units at the canonical form of the
**dataset's** units — the mismatch handler canonicalizes the units slot
after `compare_attr` has already overwritten it with the dataset value. -/
theorem reconcile_units_equivalent_unequal
    (skip_units : Bool) (uEquiv uEqual : AttrValue → AttrValue → Bool)
    (toCF : String → String) (our : TranslatedVar) (dsAttrs : Attrs)
    (u v : String)
    (hu : our.units = .str u) (hu2 : u ≠ "")
    (hv : alGetD dsAttrs "units" .notFound = .str v) (hv2 : v ≠ "")
    (heq : uEquiv (.str u) (.str v) = true)
    (hne : uEqual (.str u) (.str v) = false) :
    reconcile_units skip_units uEquiv uEqual toCF our dsAttrs =
      ({ our with units := .str (toCF v) }, dsAttrs, none) := by
  simp [reconcile_units, check_unit, reconcile_attr, compare_attr,
    vget, vset, fieldName, toCFVal, truthy, hu, hv, hu2, hv2, heq, hne]

/-- Witness for C2's amended theorem at the spec's own scenario. -/
theorem reconcile_units_equivalent_unequal_witness :
    reconcile_units false (fun _ _ => true) (fun _ _ => false)
        (fun s => "canon:" ++ s)
        ⟨AttrValue.str "pr_var", AttrValue.notFound, AttrValue.str "kg m-2 s-1"⟩
        [("units", AttrValue.str "mm/day")] =
      (⟨AttrValue.str "pr_var", AttrValue.notFound,
        AttrValue.str "canon:mm/day"⟩,
       [("units", AttrValue.str "mm/day")], none) :=
  reconcile_units_equivalent_unequal false (fun _ _ => true)
    (fun _ _ => false) (fun s => "canon:" ++ s)
    ⟨AttrValue.str "pr_var", AttrValue.notFound, AttrValue.str "kg m-2 s-1"⟩
    [("units", AttrValue.str "mm/day")] "kg m-2 s-1" "mm/day"
    rfl (by decide) rfl (by decide) rfl rfl

/-- The validation loop raises `Too many ... axes` as soon as some axis
carries at least two coordinate names. -/
theorem axLoop_error_of_many (items : List (String × List String))
    (dims : List String) (h : ∃ p ∈ items, 2 ≤ p.2.length) :
    axLoop items dims = .error .tooManyAxes := by
  induction items generalizing dims with
  | nil => simp at h
  | cons q rest ih =>
    obtain ⟨p, hp, hlen⟩ := h
    obtain ⟨k, v⟩ := q
    rcases List.mem_cons.mp hp with hhd | htl
    · subst hhd
      match v, hlen with
      | a :: b :: t, _ => simp [axLoop]
    · have herr : ∀ dims', axLoop rest dims' = .error .tooManyAxes :=
        fun dims' => ih dims' ⟨p, htl, hlen⟩
      match v with
      | [] => simp [axLoop, herr dims]
      | [c] =>
        by_cases hc : c ∈ dims
        · simp [axLoop, hc, herr (dims.erase c)]
        · simp [axLoop, hc, herr dims]
      | a :: b :: t => simp [axLoop]

/-- Every axis entry coming out of the validation loop holds at most one
coordinate name. -/
theorem axLoop_ok_bound (items : List (String × List String))
    (dims : List String) (vd dl ek delk)
    (h : axLoop items dims = .ok (vd, dl, ek, delk)) :
    ∀ p ∈ vd, p.2.length ≤ 1 := by
  induction items generalizing dims vd dl ek delk with
  | nil =>
    simp [axLoop] at h
    simp [h.1]
  | cons q rest ih =>
    obtain ⟨k, v⟩ := q
    match v with
    | [] =>
      rw [axLoop] at h
      cases hq : axLoop rest dims with
      | error e => rw [hq] at h; exact absurd h (by simp)
      | ok r =>
        obtain ⟨vd', dl', ek', delk'⟩ := r
        rw [hq] at h
        simp only [Except.ok.injEq, Prod.mk.injEq] at h
        obtain ⟨h1, _, _, _⟩ := h
        subst h1
        intro p hp
        rcases List.mem_cons.mp hp with hh | ht
        · simp [hh]
        · exact ih dims vd' dl' ek' delk' hq p ht
    | [c] =>
      rw [axLoop] at h
      by_cases hc : c ∈ dims
      · simp only [hc, if_true] at h
        cases hq : axLoop rest (dims.erase c) with
        | error e => rw [hq] at h; exact absurd h (by simp)
        | ok r =>
          obtain ⟨vd', dl', ek', delk'⟩ := r
          rw [hq] at h
          simp only [Except.ok.injEq, Prod.mk.injEq] at h
          obtain ⟨h1, _, _, _⟩ := h
          subst h1
          intro p hp
          rcases List.mem_cons.mp hp with hh | ht
          · simp [hh]
          · exact ih (dims.erase c) vd' dl' ek' delk' hq p ht
      · simp only [hc, if_false] at h
        cases hq : axLoop rest dims with
        | error e => rw [hq] at h; exact absurd h (by simp)
        | ok r =>
          obtain ⟨vd', dl', ek', delk'⟩ := r
          rw [hq] at h
          simp only [Except.ok.injEq, Prod.mk.injEq] at h
          obtain ⟨h1, _, _, _⟩ := h
          subst h1
          intro p hp
          rcases List.mem_cons.mp hp with hh | ht
          · simp [hh]
          · exact ih dims vd' dl' ek' delk' hq p ht
    | a :: b :: t => rw [axLoop] at h; exact absurd h (by simp)

/-- `alSet` with a short value list keeps the at-most-one bound. -/
theorem alSet_bound (l : List (String × List String)) (k : String)
    (v : List String) (hl : ∀ p ∈ l, p.2.length ≤ 1) (hv : v.length ≤ 1) :
    ∀ p ∈ alSet l k v, p.2.length ≤ 1 := by
  induction l with
  | nil =>
    intro p hp
    simp [alSet] at hp
    simp [hp, hv]
  | cons q rest ih =>
    intro p hp
    rw [alSet] at hp
    by_cases hk : q.1 = k
    · simp only [hk, if_true] at hp
      rcases List.mem_cons.mp hp with hh | ht
      · simp [hh, hv]
      · exact hl p (List.mem_cons_of_mem _ ht)
    · simp only [hk, if_false] at hp
      rcases List.mem_cons.mp hp with hh | ht
      · exact hh ▸ hl q (List.mem_cons_self _ _)
      · exact ih (fun p hp => hl p (List.mem_cons_of_mem _ hp)) p ht

/-- Zeroing-out the delete-marked axes keeps the at-most-one bound. -/
theorem axZero_bound (delk : List String)
    (vd : List (String × List String)) (h : ∀ p ∈ vd, p.2.length ≤ 1) :
    ∀ p ∈ delk.foldl (fun acc k => alSet acc k []) vd, p.2.length ≤ 1 := by
  induction delk generalizing vd with
  | nil => simpa using h
  | cons k rest ih =>
    intro p hp
    exact ih (alSet vd k []) (alSet_bound vd k [] h (by simp)) p hp

theorem insertStr_length (x : String) (l : List String) :
    (insertStr x l).length = l.length + 1 := by
  induction l with
  | nil => rfl
  | cons y ys ih =>
    rw [insertStr]
    cases hxy : strLtB x y
    · simp [hxy, ih]
    · simp [hxy]

theorem sortStrs_length (l : List String) :
    (sortStrs l).length = l.length := by
  induction l with
  | nil => rfl
  | cons x xs ih => rw [sortStrs, insertStr_length, ih, List.length_cons]

/-- After finalization every surviving axis maps to exactly one name. -/
theorem axFinalize_one (vd : List (String × List String))
    (delk : List String) (h : ∀ p ∈ vd, p.2.length ≤ 1) :
    ∀ p ∈ axFinalize vd delk, p.2.length = 1 := by
  intro p hp
  rw [axFinalize] at hp
  obtain ⟨q, hq, hpq⟩ := List.mem_map.mp hp
  have hqf := List.mem_filter.mp hq
  have hb := axZero_bound delk vd h q hqf.1
  have hne : q.2 ≠ [] := by
    intro hnil
    rw [hnil] at hqf
    simp at hqf
  have h1 : q.2.length = 1 := by
    cases hl : q.2.length with
    | zero => exact absurd (List.length_eq_zero.mp hl) hne
    | succ n =>
      have := hl ▸ hb
      omega
  rw [← hpq]
  simpa [sortStrs_length] using h1

/-- Claim C6: computing axes for a single dependent variable enforces
exactly one coordinate per axis label — at least two coordinates on one
axis is a `TypeError` (the dimensionality-mismatch kind), and any
successful result maps each surviving axis label to exactly one name —
while the whole-dataset form keeps multiple coordinates per axis without
raising. -/
theorem axes_per_variable_unique :
    (∀ (get : String → List String) (dims : List String),
      (∃ k ∈ AXIS_NAMES, 2 ≤ (get k).length) →
        _old_axes_dict_var get dims = .error .tooManyAxes)
    ∧ (∀ (get : String → List String) (dims : List String)
        (r : List (String × List String)),
        _old_axes_dict_var get dims = .ok r → ∀ p ∈ r, p.2.length = 1)
    ∧ _old_axes_dict_ds (fun k => if k = "X" then ["lon", "lon2"] else []) =
        [("X", ["lon", "lon2"])] := by
  refine ⟨?_, ?_, by decide⟩
  · intro get dims ⟨k, hk, hlen⟩
    have herr := axLoop_error_of_many (AXIS_NAMES.map (fun k => (k, get k)))
      dims ⟨(k, get k), List.mem_map.mpr ⟨k, hk, rfl⟩, hlen⟩
    rw [_old_axes_dict_var, herr]
  · intro get dims r h
    rw [_old_axes_dict_var] at h
    cases hq : axLoop (AXIS_NAMES.map (fun k => (k, get k))) dims with
    | error e => rw [hq] at h; exact absurd h (by simp)
    | ok res =>
      obtain ⟨vd, dl, ek, delk⟩ := res
      rw [hq] at h
      have hbound := axLoop_ok_bound _ _ _ _ _ _ hq
      match dl, h with
      | [], h =>
        have hr : r = axFinalize vd delk := by
          simpa using h.symm
        rw [hr]
        exact axFinalize_one vd delk hbound
      | [d0], h =>
        match ek, h with
        | [e0], h =>
          have hr : r = axFinalize (alSet vd e0 [d0]) delk := by
            simpa using h.symm
          rw [hr]
          exact axFinalize_one _ delk (alSet_bound vd e0 [d0] hbound (by simp))

/-- Witness for C6 at concrete inputs: two X coordinates raise, and a
clean single-coordinate layout yields one name per axis. -/
theorem axes_per_variable_unique_witness :
    _old_axes_dict_var (fun k => if k = "X" then ["a", "b"] else []) ["a"] =
      .error .tooManyAxes
    ∧ ∀ p ∈ [("X", ["lon"])], (p : String × List String).2.length = 1 :=
  ⟨axes_per_variable_unique.1 (fun k => if k = "X" then ["a", "b"] else [])
    ["a"] ⟨"X", by decide, by decide⟩,
   axes_per_variable_unique.2.1 (fun k => if k = "X" then ["lon"] else [])
    ["lon"] [("X", ["lon"])] rfl⟩

/-- A filter over a list on which the predicate is everywhere false is
empty. -/
theorem filter_nil_of {α : Type} (p : α → Bool) (l : List α)
    (h : ∀ a ∈ l, p a = false) : l.filter p = [] := by
  induction l with
  | nil => rfl
  | cons a l ih =>
    rw [List.filter_cons, h a (List.mem_cons_self a l)]
    simp only [Bool.false_eq_true, if_false]
    exact ih (fun b hb => h b (List.mem_cons_of_mem a hb))

theorem alGet?_alSet_self {α : Type} (l : List (String × α)) (k : String)
    (v : α) : alGet? (alSet l k v) k = some v := by
  induction l with
  | nil => simp [alSet, alGet?]
  | cons q rest ih =>
    rw [alSet]
    by_cases hk : q.1 = k
    · simp [alGet?, hk]
    · simp [alGet?, hk, ih]

theorem alGet?_alSet_ne {α : Type} (l : List (String × α)) (k k' : String)
    (v : α) (h : k ≠ k') : alGet? (alSet l k v) k' = alGet? l k' := by
  induction l with
  | nil => simp [alSet, alGet?, h]
  | cons q rest ih =>
    rw [alSet]
    by_cases hk : q.1 = k
    · simp [alGet?, hk, h]
    · rw [if_neg hk, alGet?, alGet?]
      by_cases hk' : q.1 = k'
      · simp [hk']
      · simp [hk', ih]

theorem alGet?_none_of_not_mem {α : Type} (l : List (String × α))
    (k : String) (h : k ∉ alKeys l) : alGet? l k = none := by
  induction l with
  | nil => rfl
  | cons q rest ih =>
    rw [alGet?]
    have hk : q.1 ≠ k := by
      intro he
      exact h (he ▸ List.mem_cons_self _ _)
    rw [if_neg hk]
    exact ih (fun hm => h (List.mem_cons_of_mem _ hm))

theorem alGet?_isSome_of_mem {α : Type} (l : List (String × α))
    (k : String) (v : α) (h : (k, v) ∈ l) : (alGet? l k).isSome = true := by
  induction l with
  | nil => simp at h
  | cons q rest ih =>
    rw [alGet?]
    by_cases hk : q.1 = k
    · simp [hk]
    · rcases List.mem_cons.mp h with hh | ht
      · exact absurd (congrArg Prod.fst hh).symm hk
      · simp [hk, ih ht]

/-- `_restore_one` never changes an existing entry. -/
theorem restore_one_preserved (b a : Attrs) (k : String) (x : AttrValue)
    (h : alGet? a k = some x) : alGet? (restore_one b a) k = some x := by
  induction b generalizing a with
  | nil => exact h
  | cons p bs ih =>
    rw [restore_one, List.foldl_cons]
    by_cases hs : (alGet? a p.1).isSome = true
    · rw [if_pos hs]
      exact ih a h
    · rw [if_neg hs]
      apply ih
      by_cases hk : p.1 = k
      · rw [hk, h] at hs
        simp at hs
      · rw [alGet?_alSet_ne a p.1 k p.2 hk]
        exact h

/-- `_restore_one` is the identity when every backed-up key is present. -/
theorem restore_one_id (b a : Attrs)
    (h : ∀ p ∈ b, (alGet? a p.1).isSome = true) : restore_one b a = a := by
  induction b with
  | nil => rfl
  | cons p bs ih =>
    rw [restore_one, List.foldl_cons, if_pos (h p (List.mem_cons_self _ _))]
    exact ih (fun q hq => h q (List.mem_cons_of_mem _ hq))

/-- On a dict with no entry for `k`, `_restore_one` looks the key up in
the backup. -/
theorem restore_one_absent (b a : Attrs) (k : String)
    (h : alGet? a k = none) : alGet? (restore_one b a) k = alGet? b k := by
  induction b generalizing a with
  | nil => simpa [restore_one, alGet?] using h
  | cons p bs ih =>
    rw [restore_one, List.foldl_cons, alGet?]
    by_cases hs : (alGet? a p.1).isSome = true
    · rw [if_pos hs]
      have hk : p.1 ≠ k := by
        intro he
        rw [he, h] at hs
        simp at hs
      rw [if_neg hk]
      exact ih a h
    · rw [if_neg hs]
      by_cases hk : p.1 = k
      · subst hk
        rw [if_pos rfl]
        exact restore_one_preserved bs _ _ _ (alGet?_alSet_self a p.1 p.2)
      · rw [if_neg hk]
        apply ih
        rw [alGet?_alSet_ne a p.1 k p.2 hk]
        exact h

/-- Unpacking a successful `normalize_ds_attrs`. -/
theorem normalize_ds_attrs_ok (ds ds' : Dataset) (bk : Attrs)
    (rs : List (String × Attrs))
    (h : normalize_ds_attrs ds = .ok (ds', bk, rs)) :
    ds' = { ds with attrs := strip_attrs ds.attrs }
    ∧ bk = strip_attrs ds.attrs ∧ normalize_vars ds.vars = .ok rs := by
  rw [normalize_ds_attrs] at h
  cases hv : normalize_vars ds.vars with
  | error e => rw [hv] at h; exact absurd h (by simp)
  | ok rs0 =>
    rw [hv] at h
    simp only [Except.ok.injEq, Prod.mk.injEq] at h
    exact ⟨h.1.symm, h.2.1.symm, by rw [← h.2.2]⟩

/-- Claim C5 (amended): the round trip with no intervening decode leaves
the dataset-level attrs at their whitespace-stripped form (hence unchanged
when already stripped), and never changes or removes an existing entry of
any variable's attrs — the variable dicts are only ever grown by the
backed-up normalized keys. -/
theorem roundTrip_preserves_existing_attrs (ds ds' : Dataset) (bk : Attrs)
    (rs : List (String × Attrs))
    (h : normalize_ds_attrs ds = .ok (ds', bk, rs)) :
    (restore_attrs ds' bk rs).attrs = strip_attrs ds.attrs
    ∧ (∀ p ∈ ds.vars, ∀ k x, alGet? p.2 k = some x →
        alGet? (restore_one (alGetD rs p.1 []) p.2) k = some x)
    ∧ (restore_attrs ds' bk rs).vars =
        ds.vars.map (fun p => (p.1, restore_one (alGetD rs p.1 []) p.2)) := by
  obtain ⟨hds, hbk, -⟩ := normalize_ds_attrs_ok ds ds' bk rs h
  refine ⟨?_, ?_, ?_⟩
  · show restore_one bk ds'.attrs = strip_attrs ds.attrs
    rw [hds, hbk]
    exact restore_one_id _ _ (fun p hp =>
      alGet?_isSome_of_mem _ p.1 p.2 hp)
  · intro p _ k x hx
    exact restore_one_preserved _ _ _ _ hx
  · show ds'.vars.map _ = ds.vars.map _
    rw [hds]

/-- Witness for C5's amended theorem at concrete inputs. -/
theorem roundTrip_preserves_existing_attrs_witness :
    (restore_attrs
        ⟨[("title", AttrValue.str "t")], [("v", [("units", AttrValue.str "K")])]⟩
        [("title", AttrValue.str "t")]
        [("v", [("units", AttrValue.str "K"),
          ("standard_name", AttrValue.notFound)])]).attrs =
      strip_attrs [("title", AttrValue.str "t")]
    ∧ alGet? (restore_one
        (alGetD [("v", [("units", AttrValue.str "K"),
          ("standard_name", AttrValue.notFound)])] "v" [])
        [("units", AttrValue.str "K")]) "units" = some (AttrValue.str "K") :=
  ⟨(roundTrip_preserves_existing_attrs
      ⟨[("title", AttrValue.str "t")], [("v", [("units", AttrValue.str "K")])]⟩
      ⟨[("title", AttrValue.str "t")], [("v", [("units", AttrValue.str "K")])]⟩
      [("title", AttrValue.str "t")]
      [("v", [("units", AttrValue.str "K"),
        ("standard_name", AttrValue.notFound)])] rfl).1,
   (roundTrip_preserves_existing_attrs
      ⟨[("title", AttrValue.str "t")], [("v", [("units", AttrValue.str "K")])]⟩
      ⟨[("title", AttrValue.str "t")], [("v", [("units", AttrValue.str "K")])]⟩
      [("title", AttrValue.str "t")]
      [("v", [("units", AttrValue.str "K"),
        ("standard_name", AttrValue.notFound)])] rfl).2.1
    ("v", [("units", AttrValue.str "K")]) (by decide)
    "units" (AttrValue.str "K") rfl⟩

/-- `guess_attr` under the default equality comparison raises `KeyError`
when no option matches exactly and none matches after munging. -/
theorem guess_eq_keyError (attr_name : String) (options : List String)
    (h1 : ∀ k ∈ options, (k == attr_name) = false)
    (h2 : ∀ k ∈ options, (str_munge k == str_munge attr_name) = false) :
    guess_attr attr_name options none none = .error .keyError := by
  have hf1 : options.filter (fun opt => opt == attr_name) = [] :=
    filter_nil_of _ _ h1
  have hf2 : options.filter
      (fun opt => str_munge opt == str_munge attr_name) = [] :=
    filter_nil_of _ _ h2
  simp [guess_attr, hf1, hf2]

/-- `guess_attr` under the `startswith` comparison raises `KeyError` when
no option starts with the wanted value, before or after munging. -/
theorem guess_sw_keyError (p : String) (options : List String)
    (h1 : ∀ k ∈ options, strSW k p = false)
    (h2 : ∀ k ∈ options, strSW (str_munge k) (str_munge p) = false) :
    guess_attr p options none (some (fun x y => strSW x y)) =
      .error .keyError := by
  have hf1 : options.filter (fun opt => strSW opt p) = [] :=
    filter_nil_of _ _ h1
  have hf2 : options.filter
      (fun opt => strSW (str_munge opt) (str_munge p)) = [] :=
    filter_nil_of _ _ h2
  simp [guess_attr, hf1, hf2]

/-- When both `guess_attr` passes end in `KeyError`, `normalize_attr`
records the sentinel. -/
theorem normalize_attr_notFound (new_attr_d d : Attrs) (kn p : String)
    (e1 : guess_attr kn (alKeys d) none none = .error .keyError)
    (e2 : guess_attr p (alKeys d) none (some (fun x y => strSW x y)) =
      .error .keyError) :
    normalize_attr new_attr_d d kn (some p) =
      .ok (alSet new_attr_d kn .notFound) := by
  rw [normalize_attr, e1, e2]

/-- Deleting a key just appended to a dict that never contained it
restores the dict. -/
theorem alDel_alSet_new {α : Type} (l : List (String × α)) (k : String)
    (v : α) (h : ∀ p ∈ l, p.1 ≠ k) : alDel (alSet l k v) k = l := by
  induction l with
  | nil => simp [alSet, alDel]
  | cons q rest ih =>
    obtain ⟨k0, v0⟩ := q
    have hq : k0 ≠ k := h (k0, v0) (List.mem_cons_self _ _)
    have ht := ih (fun p hp => h p (List.mem_cons_of_mem _ hp))
    rw [alSet, if_neg hq, alDel, List.filter_cons_of_pos (by simp [hq])]
    exact congrArg (fun t => (k0, v0) :: t) ht

/-- Claim C7 (amended): `normalize_calendar` leaves the dict without a
calendar key (unchanged) when no key looks calendar-like even after
munging; a value exactly in the vocabulary is kept; `"std"` matches no
vocabulary entry even after munging and falls back to the default
`proleptic_gregorian`, not to the entry of `gregorian`; values matching only
case-insensitively (`"Gregorian"`, `"GREGORIAN"`) raise `NameError` from
the unbound `self` in the log call of `guess_attr`; any other
value falls back to `proleptic_gregorian`. -/
theorem normalize_calendar_behavior :
    (∀ attrs : Attrs,
      (∀ k ∈ alKeys attrs, strSW k "cal" = false ∧
          strSW (str_munge k) "cal" = false) →
        normalize_calendar attrs = .ok attrs ∧ alGet? attrs "calendar" = none)
    ∧ normalize_calendar [("calendar", AttrValue.str "gregorian")] =
        .ok [("calendar", AttrValue.str "gregorian")]
    ∧ normalize_calendar [("calendar", AttrValue.str "std")] =
        .ok [("calendar", AttrValue.str "proleptic_gregorian")]
    ∧ normalize_calendar [("calendar", AttrValue.str "GREGORIAN")] =
        .error .nameError
    ∧ normalize_calendar [("calendar", AttrValue.str "my_own_cal")] =
        .ok [("calendar", AttrValue.str "proleptic_gregorian")] := by
  refine ⟨?_, rfl, rfl, rfl, rfl⟩
  intro attrs h
  have hnk : ∀ k ∈ alKeys attrs, k ≠ "calendar" := by
    intro k hk he
    subst he
    exact absurd (h _ hk).2 (by decide)
  have e1 : guess_attr "calendar" (alKeys attrs) none none =
      .error .keyError := by
    apply guess_eq_keyError
    · intro k hk
      have := hnk k hk
      simp [this]
    · intro k hk
      have hne : str_munge k ≠ str_munge "calendar" := by
        intro he
        have h2 := (h k hk).2
        rw [he] at h2
        exact absurd h2 (by decide)
      simp [hne]
  have e2 : guess_attr "cal" (alKeys attrs) none
      (some (fun x y => strSW x y)) = .error .keyError := by
    apply guess_sw_keyError
    · intro k hk
      exact (h k hk).1
    · intro k hk
      have hmc : str_munge "cal" = "cal" := by decide
      rw [hmc]
      exact (h k hk).2
  have hget : alGet? attrs "calendar" = none := by
    apply alGet?_none_of_not_mem
    intro hm
    exact (hnk "calendar" hm) rfl
  constructor
  · rw [normalize_calendar, normalize_attr_notFound attrs attrs _ _ e1 e2]
    have hself := alGet?_alSet_self attrs "calendar" AttrValue.notFound
    simp only [alGetD, hself, Option.getD_some]
    rw [alDel_alSet_new attrs "calendar" AttrValue.notFound
      (fun p hp he => (hnk p.1 (List.mem_map.mpr ⟨p, hp, rfl⟩)) he)]
  · exact hget

/-- Witness for C7's amended theorem: a calendar-free dict is returned
unchanged. -/
theorem normalize_calendar_behavior_witness :
    normalize_calendar [("title", AttrValue.str "t")] =
      .ok [("title", AttrValue.str "t")]
    ∧ alGet? [("title", AttrValue.str "t")] "calendar" = none :=
  normalize_calendar_behavior.1 [("title", AttrValue.str "t")] (by decide)

theorem mem_alKeys_alSet_self {α : Type} (l : List (String × α))
    (k : String) (v : α) : k ∈ alKeys (alSet l k v) := by
  induction l with
  | nil => simp [alSet, alKeys]
  | cons q rest ih =>
    rw [alSet]
    by_cases hk : q.1 = k
    · rw [if_pos hk]
      exact hk ▸ List.mem_cons_self _ _
    · rw [if_neg hk]
      exact List.mem_cons_of_mem _ ih

theorem mem_alKeys_alSet_mono {α : Type} (l : List (String × α))
    (k k' : String) (v : α) (h : k' ∈ alKeys l) :
    k' ∈ alKeys (alSet l k v) := by
  induction l with
  | nil => simp [alKeys] at h
  | cons q rest ih =>
    rw [alSet]
    by_cases hk : q.1 = k
    · rw [if_pos hk]
      simpa [alKeys] using h
    · rw [if_neg hk]
      rcases List.mem_cons.mp h with hh | ht
      · exact hh ▸ List.mem_cons_self _ _
      · exact List.mem_cons_of_mem _ (ih ht)

/-- Keys already in the accumulator survive the stripping fold. -/
theorem strip_fold_mem_acc (l : List (String × AttrValue)) (acc : Attrs)
    (k : String) (h : k ∈ alKeys acc) :
    k ∈ alKeys (l.foldl
      (fun acc p => alSet acc (strTrim p.1) (stripVal p.2)) acc) := by
  induction l generalizing acc with
  | nil => exact h
  | cons p rest ih =>
    rw [List.foldl_cons]
    exact ih _ (mem_alKeys_alSet_mono _ _ _ _ h)

theorem mem_keys_strip_aux (l : List (String × AttrValue)) (acc : Attrs)
    (k : String) (v : AttrValue) (h : (k, v) ∈ l) :
    strTrim k ∈ alKeys (l.foldl
      (fun acc p => alSet acc (strTrim p.1) (stripVal p.2)) acc) := by
  induction l generalizing acc with
  | nil => simp at h
  | cons p rest ih =>
    rw [List.foldl_cons]
    rcases List.mem_cons.mp h with hh | ht
    · have hp1 : p.1 = k := (congrArg Prod.fst hh).symm
      apply strip_fold_mem_acc
      rw [← hp1]
      exact mem_alKeys_alSet_self acc (strTrim p.1) (stripVal p.2)
    · exact ih _ ht

/-- Every key of a dict reappears, stripped, among the keys of its
stripped form. -/
theorem mem_keys_strip (d : Attrs) (k : String) (v : AttrValue)
    (h : (k, v) ∈ d) : strTrim k ∈ alKeys (strip_attrs d) :=
  mem_keys_strip_aux d [] k v h

/-- A successful `normalize_attr` into an empty target yields the
one-entry dict at the looked-up key. -/
theorem normalize_attr_empty_shape (d : Attrs) (kn : String)
    (sw : Option String) (nd : Attrs)
    (h : normalize_attr [] d kn sw = .ok nd) : ∃ x, nd = [(kn, x)] := by
  cases hg : guess_attr kn (alKeys d) none none with
  | ok k =>
    simp only [normalize_attr.eq_def, hg] at h
    split at h <;>
      (simp only [Except.ok.injEq] at h; exact ⟨_, h.symm⟩)
  | error e =>
    cases e with
    | keyError =>
      simp only [normalize_attr.eq_def, hg] at h
      cases sw with
      | none =>
        simp only [Except.ok.injEq] at h
        exact ⟨_, h.symm⟩
      | some p =>
        cases hg2 : guess_attr p (alKeys d) none
            (some (fun x y => strSW x y)) with
        | ok k =>
          simp only [hg2] at h
          split at h <;>
            (simp only [Except.ok.injEq] at h; exact ⟨_, h.symm⟩)
        | error e2 =>
          cases e2 with
          | keyError =>
            simp only [hg2] at h
            simp only [Except.ok.injEq] at h
            exact ⟨_, h.symm⟩
          | typeError =>
            simp only [hg2] at h
            exact Except.noConfusion h
          | valueError a b =>
            simp only [hg2] at h
            exact Except.noConfusion h
          | nameError =>
            simp only [hg2] at h
            exact Except.noConfusion h
    | typeError =>
      simp only [normalize_attr.eq_def, hg] at h
      exact Except.noConfusion h
    | valueError a b =>
      simp only [normalize_attr.eq_def, hg] at h
      exact Except.noConfusion h
    | nameError =>
      simp only [normalize_attr.eq_def, hg] at h
      exact Except.noConfusion h

/-- On a variable whose (stripped) attribute keys never look like a units
key — not even after munging — `normalize_unit` records the sentinel. -/
theorem normalize_unit_notFound (nd d : Attrs)
    (h : ∀ k ∈ alKeys d, strSW k "unit" = false ∧
        strSW (str_munge k) "unit" = false) :
    normalize_unit nd d = .ok (alSet nd "units" .notFound) := by
  have e1 : guess_attr "units" (alKeys d) none none = .error .keyError := by
    apply guess_eq_keyError
    · intro k hk
      have hne : k ≠ "units" := by
        intro he
        subst he
        exact absurd (h _ hk).1 (by decide)
      simp [hne]
    · intro k hk
      have hne : str_munge k ≠ str_munge "units" := by
        intro he
        have h2 := (h k hk).2
        rw [he] at h2
        exact absurd h2 (by decide)
      simp [hne]
  have e2 : guess_attr "unit" (alKeys d) none
      (some (fun x y => strSW x y)) = .error .keyError := by
    apply guess_sw_keyError
    · intro k hk
      exact (h k hk).1
    · intro k hk
      have hmu : str_munge "unit" = "unit" := by decide
      rw [hmu]
      exact (h k hk).2
  rw [normalize_unit, normalize_attr_notFound nd d _ _ e1 e2]
  simp only [alGet?_alSet_self]

/-- The per-variable loop pairs each variable (under distinct names) with
its own restore dict. -/
theorem normalize_vars_lookup (l rs : List (String × Attrs))
    (v : String) (a : Attrs)
    (h : normalize_vars l = .ok rs) (hm : (v, a) ∈ l)
    (hnd : (l.map Prod.fst).Nodup) :
    ∃ r, normalize_var_restore a = .ok r ∧ alGetD rs v [] = r := by
  induction l generalizing rs with
  | nil => simp at hm
  | cons q rest ih =>
    obtain ⟨n0, a0⟩ := q
    rw [normalize_vars] at h
    cases h0 : normalize_var_restore a0 with
    | error e => rw [h0] at h; exact absurd h (by simp)
    | ok r0 =>
      rw [h0] at h
      cases h1 : normalize_vars rest with
      | error e => rw [h1] at h; exact absurd h (by simp)
      | ok rs' =>
        rw [h1] at h
        simp only [Except.ok.injEq] at h
        subst h
        rcases List.mem_cons.mp hm with hh | ht
        · have hv : v = n0 := congrArg Prod.fst hh
          have ha : a = a0 := congrArg Prod.snd hh
          refine ⟨r0, ha ▸ h0, ?_⟩
          simp [alGetD, alGet?, hv]
        · have hvmem : v ∈ rest.map Prod.fst :=
            List.mem_map.mpr ⟨(v, a), ht, rfl⟩
          rw [List.map_cons] at hnd
          have hnd' := List.nodup_cons.mp hnd
          have hne : n0 ≠ v := fun he => hnd'.1 (he ▸ hvmem)
          obtain ⟨r, hr1, hr2⟩ := ih rs' h1 ht hnd'.2
          refine ⟨r, hr1, ?_⟩
          rw [alGetD, alGet?, if_neg hne]
          exact hr2

/-- Claim C10: for a dataset variable carrying no units attribute under
any recognized spelling (no attribute key looks like a units key even
after munging), `normalize_ds_attrs` followed by `restore_attrs` stores
the `ATTR_NOT_FOUND` sentinel under the variable's `units` key, and
`check_unit` treats this stored sentinel like an absent attribute: it
raises `TypeError` unless the lenient flag is set, in which case it only
warns and returns. -/
theorem missing_units_sentinel_check_unit
    (ds ds' : Dataset) (bk : Attrs) (rs : List (String × Attrs))
    (v : String) (a : Attrs)
    (h1 : normalize_ds_attrs ds = .ok (ds', bk, rs))
    (h2 : (v, a) ∈ ds.vars)
    (h3 : (ds.vars.map Prod.fst).Nodup)
    (h4 : ∀ k ∈ alKeys (strip_attrs a), strSW k "unit" = false ∧
        strSW (str_munge k) "unit" = false) :
    alGet? (restore_one (alGetD rs v []) a) "units" = some .notFound
    ∧ (v, restore_one (alGetD rs v []) a) ∈ (restore_attrs ds' bk rs).vars
    ∧ check_unit false (restore_one (alGetD rs v []) a) = .error .typeError
    ∧ check_unit true (restore_one (alGetD rs v []) a) = .ok () := by
  obtain ⟨hds, hbk, hnv⟩ := normalize_ds_attrs_ok ds ds' bk rs h1
  obtain ⟨r, hr, hrs⟩ := normalize_vars_lookup ds.vars rs v a hnv h2 h3
  have hr2 : alGet? r "units" = some .notFound := by
    cases hs : normalize_standard_name [] (strip_attrs a) with
    | error e =>
      have hbad : normalize_var_restore a = .error e := by
        simp only [normalize_var_restore, hs]
      rw [hbad] at hr
      exact absurd hr (by simp)
    | ok nd1 =>
      obtain ⟨x, hnd1⟩ :=
        normalize_attr_empty_shape (strip_attrs a) "standard_name"
          (some "standard") nd1 hs
      have hu := normalize_unit_notFound nd1 (strip_attrs a) h4
      cases hc : normalize_calendar (strip_attrs a) with
      | error e =>
        have hbad : normalize_var_restore a = .error e := by
          simp only [normalize_var_restore, hs, hu, hc]
        rw [hbad] at hr
        exact absurd hr (by simp)
      | ok d2 =>
        have hcomp : normalize_var_restore a =
            .ok (alUpdate d2 (alSet nd1 "units" AttrValue.notFound)) := by
          simp only [normalize_var_restore, hs, hu, hc]
        rw [hcomp] at hr
        simp only [Except.ok.injEq] at hr
        rw [← hr, hnd1]
        have hformula : alSet [("standard_name", x)] "units"
            AttrValue.notFound =
            [("standard_name", x), ("units", AttrValue.notFound)] := by
          simp [alSet]
        rw [hformula]
        show alGet? (alSet (alSet d2 "standard_name" x) "units"
          AttrValue.notFound) "units" = some .notFound
        exact alGet?_alSet_self _ _ _
  have hnin : alGet? a "units" = none := by
    apply alGet?_none_of_not_mem
    intro hm
    obtain ⟨p, hp, hfst⟩ := List.mem_map.mp hm
    have hmem := mem_keys_strip a p.1 p.2 hp
    rw [hfst] at hmem
    have hteq : strTrim "units" = "units" := by decide
    rw [hteq] at hmem
    exact absurd (h4 "units" hmem).1 (by decide)
  have hfin : alGet? (restore_one (alGetD rs v []) a) "units" =
      some .notFound := by
    rw [hrs, restore_one_absent r a "units" hnin]
    exact hr2
  have hgd : alGetD (restore_one (alGetD rs v []) a) "units"
      AttrValue.notFound = AttrValue.notFound := by
    show (alGet? (restore_one (alGetD rs v []) a) "units").getD
      AttrValue.notFound = AttrValue.notFound
    rw [hfin]
    rfl
  refine ⟨hfin, ?_, ?_, ?_⟩
  · show (v, restore_one (alGetD rs v []) a) ∈
      ds'.vars.map (fun p => (p.1, restore_one (alGetD rs p.1 []) p.2))
    rw [hds]
    exact List.mem_map.mpr ⟨(v, a), h2, rfl⟩
  · simp [check_unit, hgd]
  · simp [check_unit, hgd]

/-- Witness for C10 at a concrete dataset with a units-free variable. -/
theorem missing_units_sentinel_check_unit_witness :
    alGet? (restore_one
      (alGetD [("v", [("standard_name", AttrValue.str "x"),
        ("units", AttrValue.notFound)])] "v" [])
      [("standard_name", AttrValue.str "x")]) "units" =
        some AttrValue.notFound
    ∧ check_unit false (restore_one
      (alGetD [("v", [("standard_name", AttrValue.str "x"),
        ("units", AttrValue.notFound)])] "v" [])
      [("standard_name", AttrValue.str "x")]) = .error .typeError :=
  ⟨(missing_units_sentinel_check_unit
      ⟨[], [("v", [("standard_name", AttrValue.str "x")])]⟩
      ⟨[], [("v", [("standard_name", AttrValue.str "x")])]⟩
      []
      [("v", [("standard_name", AttrValue.str "x"),
        ("units", AttrValue.notFound)])]
      "v" [("standard_name", AttrValue.str "x")]
      rfl (by decide) (by decide) (by decide)).1,
   (missing_units_sentinel_check_unit
      ⟨[], [("v", [("standard_name", AttrValue.str "x")])]⟩
      ⟨[], [("v", [("standard_name", AttrValue.str "x")])]⟩
      []
      [("v", [("standard_name", AttrValue.str "x"),
        ("units", AttrValue.notFound)])]
      "v" [("standard_name", AttrValue.str "x")]
      rfl (by decide) (by decide) (by decide)).2.2.1⟩
